import Mathlib

/-!
Shallow embedding of `mace/tools/utils.py` (statistics helpers, the
`AtomicNumberTable` data model, and the `load_foundations` weight-transplant
routine), together with theorems settling the specification claims.

Modelling conventions:
* numpy arrays are finite real sequences `Fin n → ℝ`; `np.mean` is sum over n
  divided by n;
* Python code that can raise (`list.index` on a missing value, sequence
  indexing out of range, the initial `assert`) is embedded in the `Option`
  monad, `none` standing for a raised exception;
* PyTorch flat weight tensors are `List ℝ`; `view`/`reshape` followed by
  advanced indexing and `flatten` is embedded by direct offset arithmetic
  (`List.drop`/`List.take`) on the flat list.  The source's `view` raises on
  non-divisible sizes; the embedding is total there and the theorems carry
  the corresponding shape hypotheses instead;
* `** 0.5` on a nonnegative float is `Real.sqrt`.
-/

/-- np.mean over a length-`n` real array (sum divided by length). -/
noncomputable def npMean {n : ℕ} (d : Fin n → ℝ) : ℝ := (∑ i, d i) / n

/-- compute_mae: np.mean(np.abs(delta)). -/
noncomputable def compute_mae {n : ℕ} (delta : Fin n → ℝ) : ℝ :=
  npMean (fun i => |delta i|)

/-- compute_rel_mae: np.mean(np.abs(delta)) / (np.mean(np.abs(target_val)) + 1e-9) * 100. -/
noncomputable def compute_rel_mae {n m : ℕ} (delta : Fin n → ℝ)
    (target_val : Fin m → ℝ) : ℝ :=
  npMean (fun i => |delta i|) / (npMean (fun i => |target_val i|) + 1e-9) * 100

/-- compute_rmse: np.sqrt(np.mean(np.square(delta))). -/
noncomputable def compute_rmse {n : ℕ} (delta : Fin n → ℝ) : ℝ :=
  Real.sqrt (npMean (fun i => (delta i) ^ 2))

/-- compute_rel_rmse: np.sqrt(np.mean(np.square(delta))) /
(np.sqrt(np.mean(np.square(target_val))) + 1e-9) * 100. -/
noncomputable def compute_rel_rmse {n m : ℕ} (delta : Fin n → ℝ)
    (target_val : Fin m → ℝ) : ℝ :=
  Real.sqrt (npMean (fun i => (delta i) ^ 2)) /
    (Real.sqrt (npMean (fun i => (target_val i) ^ 2)) + 1e-9) * 100

/-- compute_c: np.mean(np.abs(delta) < eta), the boolean array averaged as 0/1. -/
noncomputable def compute_c {n : ℕ} (delta : Fin n → ℝ) (eta : ℝ) : ℝ :=
  npMean (fun i => if |delta i| < eta then (1 : ℝ) else 0)

/-- The AtomicNumberTable class: a plain wrapper around the stored sequence
of atomic numbers; the constructor performs no sorting or deduplication. -/
structure AtomicNumberTable where
  zs : List ℤ

/-- index_to_z: self.zs[index]; out-of-range indexing raises, hence Option. -/
def AtomicNumberTable.index_to_z (t : AtomicNumberTable) (index : ℕ) : Option ℤ :=
  t.zs[index]?

/-- Python list.index: index of the first occurrence, raising (none) on a miss. -/
def zIndexOf (z : ℤ) : List ℤ → Option ℕ
  | [] => none
  | a :: rest => if a = z then some 0 else (zIndexOf z rest).map (· + 1)

/-- z_to_index: self.zs.index(atomic_number); raises (none) when absent. -/
def AtomicNumberTable.z_to_index (t : AtomicNumberTable) (atomic_number : ℤ) : Option ℕ :=
  zIndexOf atomic_number t.zs

/-- get_atomic_number_table_from_zs: AtomicNumberTable(sorted(list(set(zs)))). -/
def get_atomic_number_table_from_zs (zs : List ℤ) : AtomicNumberTable :=
  ⟨zs.toFinset.sort (· ≤ ·)⟩

/-- The data-model invariant claimed for AtomicNumberTable: entries sorted
ascending, and index_to_z / z_to_index mutually inverse on the table. -/
def tableInvariant (t : AtomicNumberTable) : Prop :=
  t.zs.Sorted (· ≤ ·) ∧
  (∀ i, ∀ z, t.index_to_z i = some z → t.z_to_index z = some i) ∧
  (∀ z i, t.z_to_index z = some i → t.index_to_z i = some z)

/-- Weights of the four-layer radial MLP model.interactions[i].conv_tp_weights;
each layer weight is a matrix stored as its list of rows. -/
structure ConvTPWeights where
  layer0 : List (List ℝ)
  layer1 : List (List ℝ)
  layer2 : List (List ℝ)
  layer3 : List (List ℝ)

/-- One entry of model.interactions: the fields load_foundations touches,
plus the class name used for the residual-block type check. -/
structure InteractionBlock where
  className : String
  linear_up_weight : List ℝ
  avg_num_neighbors : ℝ
  conv_tp_weights : ConvTPWeights
  linear_weight : List ℝ
  skip_tp_weight : List ℝ

/-- One symmetric contraction: weights_max and the list weights of secondary
weight tensors, every tensor indexed by species along its first dimension. -/
structure Contraction where
  weights_max : List (List (List ℝ))
  weights : List (List (List (List ℝ)))

/-- One entry of model.products. -/
structure ProductBlock where
  contractions : List Contraction
  linear_weight : List ℝ

/-- The scale_shift submodule (None on a model without it). -/
structure ScaleShift where
  scale : ℝ
  shift : ℝ

/-- The slice of a MACE model that load_foundations reads and writes. -/
structure MaceModel where
  r_max : ℚ
  atomic_numbers : List ℤ
  node_embedding_weight : List ℝ
  bessel_fn_className : String
  bessel_weights : List ℝ
  radial_out_dim : ℕ
  lmax : ℕ
  num_interactions : ℕ
  interactions : List InteractionBlock
  products : List ProductBlock
  readout0_linear_weight : List ℝ
  readout1_linear1_weight : List ℝ
  readout1_linear2_weight : List ℝ
  scale_shift : Option ScaleShift

/-- weight.view(k, -1)[indices, :].flatten() on a flat tensor with row length
rowLen: the selected per-species rows, concatenated. -/
def reindexFlat (w : List ℝ) (rowLen : ℕ) (indices : List ℕ) : List ℝ :=
  (indices.map (fun s => (w.drop (s * rowLen)).take rowLen)).flatten

/-- skip_tp.weight.reshape(ch, nf, ch)[:, indices, :].flatten(): flat offset of
entry (a, s, c) is a*nf*ch + s*ch + c. -/
def reindexSkip3 (w : List ℝ) (ch nf : ℕ) (indices : List ℕ) : List ℝ :=
  ((List.range ch).map (fun a =>
    (indices.map (fun s => (w.drop (a * (nf * ch) + s * ch)).take ch)).flatten)).flatten

/-- skip_tp.weight.reshape(ch, L, nf, ch)[:, :, indices, :].flatten(): flat
offset of entry (a, e, s, c) is (a*L + e)*nf*ch + s*ch + c. -/
def reindexSkip4 (w : List ℝ) (ch L nf : ℕ) (indices : List ℕ) : List ℝ :=
  ((List.range ch).map (fun a =>
    ((List.range L).map (fun e =>
      (indices.map (fun s =>
        (w.drop ((a * L + e) * (nf * ch) + s * ch)).take ch)).flatten)).flatten)).flatten

/-- tensor[indices, :, :]: advanced indexing along the first (species)
dimension of a tensor stored as a list of per-species blocks; an index beyond
the first dimension raises. -/
def reindexDim0 {α : Type} (blocks : List α) : List ℕ → Option (List α)
  | [] => some []
  | s :: rest =>
    match blocks[s]?, reindexDim0 blocks rest with
    | some b, some bs => some (b :: bs)
    | _, _ => none

/-- The list comprehension [z_table.z_to_index(z) for z in new_z_table.zs]:
any lookup miss raises. -/
def mapIndices (zs : List ℤ) : List ℤ → Option (List ℕ)
  | [] => some []
  | z :: rest =>
    match zIndexOf z zs, mapIndices zs rest with
    | some i, some is => some (i :: is)
    | _, _ => none

/-- A Python loop for i in range(n) replacing element i of the target list by
f applied to the old target element and the foundation element; an index past
either list raises. -/
def zipTransform {α : Type} (f : α → α → Option α) :
    ℕ → List α → List α → Option (List α)
  | 0, ts, _ => some ts
  | _ + 1, [], _ => none
  | _ + 1, _ :: _, [] => none
  | n + 1, t :: ts, g :: gs =>
    match f t g, zipTransform f n ts gs with
    | some t2, some rest => some (t2 :: rest)
    | _, _ => none

/-- The body of the interaction-layer loop of load_foundations (steps on
linear_up, avg_num_neighbors, the four conv_tp_weights layers with the first
sliced to numRadial rows, linear, and the class-dependent skip_tp reshape). -/
noncomputable def transformInteraction (numRadial ch nf L ns : ℕ)
    (indices : List ℕ) (tgt fnd : InteractionBlock) : InteractionBlock :=
  let scale : ℝ := Real.sqrt ((nf : ℝ) / (ns : ℝ))
  { tgt with
    linear_up_weight := fnd.linear_up_weight
    avg_num_neighbors := fnd.avg_num_neighbors
    conv_tp_weights :=
      { layer0 := fnd.conv_tp_weights.layer0.take numRadial
        layer1 := fnd.conv_tp_weights.layer1
        layer2 := fnd.conv_tp_weights.layer2
        layer3 := fnd.conv_tp_weights.layer3 }
    linear_weight := fnd.linear_weight
    skip_tp_weight :=
      if tgt.className = "RealAgnosticResidualInteractionBlock" then
        (reindexSkip3 fnd.skip_tp_weight ch nf indices).map (· / scale)
      else
        (reindexSkip4 fnd.skip_tp_weight ch L nf indices).map (· / scale) }

/-- The body of the contraction loop: weights_max and the two entries of
weights re-indexed along the species dimension; assignment into weights[k]
first requires position k to exist on the target. -/
def transformContraction (indices : List ℕ) (tgt fnd : Contraction) :
    Option Contraction := do
  let wm ← reindexDim0 fnd.weights_max indices
  let fw0 ← fnd.weights[0]?
  let fw1 ← fnd.weights[1]?
  let nw0 ← reindexDim0 fw0 indices
  let nw1 ← reindexDim0 fw1 indices
  let _ ← tgt.weights[0]?
  let _ ← tgt.weights[1]?
  pure { tgt with
    weights_max := wm
    weights := (tgt.weights.set 0 nw0).set 1 nw1 }

/-- The body of the product-module loop: maxRange contractions updated, then
the product's output linear weight copied. -/
def transformProduct (indices : List ℕ) (maxRange : ℕ) (tgt fnd : ProductBlock) :
    Option ProductBlock := do
  let cs ← zipTransform (fun t g => transformContraction indices t g) maxRange
    tgt.contractions fnd.contractions
  pure { tgt with contractions := cs, linear_weight := fnd.linear_weight }

/-- The final scale/shift step: when the foundation has a scale_shift module,
copy scale and/or shift onto the target as the two flags request (reading a
missing target scale_shift raises). -/
def applyScaleShift (fnd tgt : Option ScaleShift) (use_scale use_shift : Bool) :
    Option (Option ScaleShift) :=
  match fnd with
  | none => some tgt
  | some fss =>
    let step1 : Option (Option ScaleShift) :=
      if use_scale then
        match tgt with
        | some t => some (some { t with scale := fss.scale })
        | none => none
      else some tgt
    match step1 with
    | none => none
    | some t1 =>
      if use_shift then
        match t1 with
        | some t => some (some { t with shift := fss.shift })
        | none => none
      else some t1

/-- load_foundations: transplant the foundation model's weights into the
target model, following the source line by line; `none` models a raised
exception. -/
noncomputable def load_foundations (model model_foundations : MaceModel)
    (table : AtomicNumberTable) (load_readout use_shift use_scale : Bool)
    (max_L : ℕ) : Option MaceModel := do
  if model_foundations.r_max = model.r_max then
    let z_table := model_foundations.atomic_numbers
    let nf := z_table.length
    let ch := model_foundations.node_embedding_weight.length / nf
    let indices ← mapIndices z_table table.zs
    let numRadial := model.radial_out_dim
    let ns := indices.length
    let maxEll := model.lmax
    let scale : ℝ := Real.sqrt ((nf : ℝ) / (ns : ℝ))
    let m1 := { model with
      node_embedding_weight :=
        (reindexFlat model_foundations.node_embedding_weight ch indices).map
          (· / scale) }
    let m2 := { m1 with
      bessel_weights := if model.bessel_fn_className = "BesselBasis" then
          model_foundations.bessel_weights
        else m1.bessel_weights }
    let inters ← zipTransform
      (fun t g => some (transformInteraction numRadial ch nf (maxEll + 1) ns indices t g))
      model.num_interactions m2.interactions model_foundations.interactions
    let m3 := { m2 with interactions := inters }
    let tp0 ← m3.products[0]?
    let fp0 ← model_foundations.products[0]?
    let np0 ← transformProduct indices (max_L + 1) tp0 fp0
    let m4 := { m3 with products := m3.products.set 0 np0 }
    let tp1 ← m4.products[1]?
    let fp1 ← model_foundations.products[1]?
    let np1 ← transformProduct indices 1 tp1 fp1
    let m5 := { m4 with products := m4.products.set 1 np1 }
    let m6 := { m5 with
      readout0_linear_weight := if load_readout then
          model_foundations.readout0_linear_weight
        else m5.readout0_linear_weight
      readout1_linear1_weight := if load_readout then
          model_foundations.readout1_linear1_weight
        else m5.readout1_linear1_weight
      readout1_linear2_weight := if load_readout then
          model_foundations.readout1_linear2_weight
        else m5.readout1_linear2_weight }
    let newSS ← applyScaleShift model_foundations.scale_shift m6.scale_shift
      use_scale use_shift
    pure { m6 with scale_shift := newSS }
  else none

/-- Concrete foundation model used in witnesses and counterexamples: one
species (H), one channel, one interaction layer, two product modules. -/
noncomputable def cexFoundation : MaceModel :=
  { r_max := 5
    atomic_numbers := [1]
    node_embedding_weight := [3]
    bessel_fn_className := "BesselBasis"
    bessel_weights := [7]
    radial_out_dim := 1
    lmax := 0
    num_interactions := 1
    interactions := [
      { className := "RealAgnosticInteractionBlock"
        linear_up_weight := [11]
        avg_num_neighbors := 13
        conv_tp_weights := { layer0 := [[17]], layer1 := [[19]], layer2 := [[23]], layer3 := [[29]] }
        linear_weight := [31]
        skip_tp_weight := [5] }]
    products := [
      { contractions := [{ weights_max := [[[37]]], weights := [[[[41]]], [[[43]]]] }]
        linear_weight := [47] },
      { contractions := [{ weights_max := [[[53]]], weights := [[[[59]]], [[[61]]]] }]
        linear_weight := [67] }]
    readout0_linear_weight := [71]
    readout1_linear1_weight := [73]
    readout1_linear2_weight := [79]
    scale_shift := some { scale := 83, shift := 89 } }

/-- Concrete freshly constructed target model matching cexFoundation's
architecture, with an interaction block of an unrecognized class. -/
noncomputable def cexTarget : MaceModel :=
  { r_max := 5
    atomic_numbers := [1]
    node_embedding_weight := [0]
    bessel_fn_className := "BesselBasis"
    bessel_weights := [0]
    radial_out_dim := 1
    lmax := 0
    num_interactions := 1
    interactions := [
      { className := "SomeFutureInteractionBlock"
        linear_up_weight := [0]
        avg_num_neighbors := 0
        conv_tp_weights := { layer0 := [[0]], layer1 := [[0]], layer2 := [[0]], layer3 := [[0]] }
        linear_weight := [0]
        skip_tp_weight := [0] }]
    products := [
      { contractions := [{ weights_max := [[[0]]], weights := [[[[0]]], [[[0]]]] }]
        linear_weight := [0] },
      { contractions := [{ weights_max := [[[0]]], weights := [[[[0]]], [[[0]]]] }]
        linear_weight := [0] }]
    readout0_linear_weight := [0]
    readout1_linear1_weight := [0]
    readout1_linear2_weight := [0]
    scale_shift := some { scale := 0, shift := 0 } }

/-- The result of load_foundations cexTarget cexFoundation on the identical
one-species table with load_readout=false, use_shift=false, use_scale=true. -/
noncomputable def cexExpected : MaceModel :=
  { r_max := 5
    atomic_numbers := [1]
    node_embedding_weight := [3]
    bessel_fn_className := "BesselBasis"
    bessel_weights := [7]
    radial_out_dim := 1
    lmax := 0
    num_interactions := 1
    interactions := [
      { className := "SomeFutureInteractionBlock"
        linear_up_weight := [11]
        avg_num_neighbors := 13
        conv_tp_weights := { layer0 := [[17]], layer1 := [[19]], layer2 := [[23]], layer3 := [[29]] }
        linear_weight := [31]
        skip_tp_weight := [5] }]
    products := [
      { contractions := [{ weights_max := [[[37]]], weights := [[[[41]]], [[[43]]]] }]
        linear_weight := [47] },
      { contractions := [{ weights_max := [[[53]]], weights := [[[[59]]], [[[61]]]] }]
        linear_weight := [67] }]
    readout0_linear_weight := [0]
    readout1_linear1_weight := [0]
    readout1_linear2_weight := [0]
    scale_shift := some { scale := 83, shift := 0 } }

/-- The mutable state of a load_foundations call: the target model mutated in
place and the foundation model it reads from. -/
structure ModelPair where
  target : MaceModel
  foundation : MaceModel

/-- A call model = load_foundations(model, model_foundations, ...): the final
state of both model objects together with the returned value. -/
noncomputable def load_foundations_call (p : ModelPair) (table : AtomicNumberTable)
    (load_readout use_shift use_scale : Bool) (max_L : ℕ) :
    Option (ModelPair × MaceModel) := do
  let m ← load_foundations p.target p.foundation table load_readout use_shift
    use_scale max_L
  pure ({ target := m, foundation := p.foundation }, m)

theorem zIndexOf_eq_none_iff (z : ℤ) (l : List ℤ) : zIndexOf z l = none ↔ z ∉ l := by
  induction l with
  | nil => simp [zIndexOf]
  | cons a rest ih =>
    by_cases h : a = z
    · subst h
      simp [zIndexOf]
    · simp only [zIndexOf, if_neg h, Option.map_eq_none', ih, List.mem_cons]
      constructor
      · intro hz hc
        rcases hc with hc | hc
        · exact h hc.symm
        · exact hz hc
      · intro hz hc
        exact hz (Or.inr hc)

theorem zIndexOf_getElem (z : ℤ) (l : List ℤ) (i : ℕ)
    (h : zIndexOf z l = some i) : l[i]? = some z := by
  induction l generalizing i with
  | nil => simp [zIndexOf] at h
  | cons a rest ih =>
    by_cases ha : a = z
    · subst ha
      simp [zIndexOf] at h
      simp [← h]
    · simp only [zIndexOf, if_neg ha] at h
      rcases Option.map_eq_some'.1 h with ⟨j, hj, hji⟩
      subst hji
      simpa using ih j hj

theorem zIndexOf_lt_length (z : ℤ) (l : List ℤ) (i : ℕ)
    (h : zIndexOf z l = some i) : i < l.length := by
  have := zIndexOf_getElem z l i h
  exact (List.getElem?_eq_some.1 this).1

theorem zIndexOf_of_nodup (l : List ℤ) (i : ℕ) (z : ℤ) (hn : l.Nodup)
    (h : l[i]? = some z) : zIndexOf z l = some i := by
  induction l generalizing i with
  | nil => simp at h
  | cons a rest ih =>
    cases i with
    | zero =>
      simp at h
      simp [zIndexOf, h]
    | succ j =>
      simp at h
      have hrest : zIndexOf z rest = some j := ih j hn.of_cons h
      have haz : a ≠ z := by
        intro hEq
        subst hEq
        have hget := zIndexOf_getElem a rest j hrest
        rcases List.getElem?_eq_some.1 hget with ⟨hlt, heq⟩
        have : a ∈ rest := heq ▸ List.getElem_mem hlt
        exact (List.nodup_cons.1 hn).1 this
      simp [zIndexOf, if_neg haz, hrest]

theorem mapIndices_eq_none (zs l : List ℤ) (h : ∃ z ∈ l, z ∉ zs) :
    mapIndices zs l = none := by
  induction l with
  | nil => simp at h
  | cons a rest ih =>
    rcases h with ⟨z, hz, hznot⟩
    rcases List.mem_cons.1 hz with hza | hzr
    · subst hza
      have : zIndexOf z zs = none := (zIndexOf_eq_none_iff z zs).2 hznot
      simp [mapIndices, this]
    · have : mapIndices zs rest = none := ih ⟨z, hzr, hznot⟩
      simp only [mapIndices, this]
      cases zIndexOf a zs <;> rfl

theorem mapIndices_eq_some_of (zs l : List ℤ) (g : ℕ → ℕ)
    (h : ∀ k, (hk : k < l.length) → zIndexOf (l.get ⟨k, hk⟩) zs = some (g k)) :
    mapIndices zs l = some ((List.range l.length).map g) := by
  induction l generalizing g with
  | nil => simp [mapIndices]
  | cons a rest ih =>
    have h0 : zIndexOf a zs = some (g 0) := h 0 (by simp)
    have hrest : mapIndices zs rest = some ((List.range rest.length).map (fun k => g (k + 1))) := by
      apply ih
      intro k hk
      exact h (k + 1) (by simpa using Nat.succ_lt_succ hk)
    simp only [mapIndices, h0, hrest, List.length_cons, List.range_succ_eq_map,
      List.map_cons, List.map_map]
    rfl

theorem mapIndices_self (zs : List ℤ) (h : zs.Nodup) :
    mapIndices zs zs = some (List.range zs.length) := by
  have := mapIndices_eq_some_of zs zs id (fun k hk => by
    apply zIndexOf_of_nodup zs k _ h
    simp)
  simpa using this

theorem mapIndices_length (zs l : List ℤ) (is : List ℕ)
    (h : mapIndices zs l = some is) : is.length = l.length := by
  induction l generalizing is with
  | nil =>
    simp [mapIndices] at h
    simp [← h]
  | cons a rest ih =>
    simp only [mapIndices] at h
    cases hza : zIndexOf a zs with
    | none => rw [hza] at h; exact absurd h (by simp)
    | some i =>
      rw [hza] at h
      cases hrest : mapIndices zs rest with
      | none => rw [hrest] at h; exact absurd h (by simp)
      | some is2 =>
        rw [hrest] at h
        have := ih is2 hrest
        simp at h
        simp [← h, this]

theorem mapIndices_getElem (zs l : List ℤ) (is : List ℕ) (k : ℕ) (z : ℤ)
    (h : mapIndices zs l = some is) (hk : l[k]? = some z) :
    ∃ j, is[k]? = some j ∧ zIndexOf z zs = some j := by
  induction l generalizing is k with
  | nil => simp at hk
  | cons a rest ih =>
    simp only [mapIndices] at h
    cases hza : zIndexOf a zs with
    | none => rw [hza] at h; exact absurd h (by simp)
    | some i =>
      rw [hza] at h
      cases hrest : mapIndices zs rest with
      | none => rw [hrest] at h; exact absurd h (by simp)
      | some is2 =>
        rw [hrest] at h
        simp at h
        subst h
        cases k with
        | zero =>
          simp at hk
          subst hk
          exact ⟨i, by simp, hza⟩
        | succ k2 =>
          simp at hk
          rcases ih is2 k2 hrest hk with ⟨j, hj1, hj2⟩
          exact ⟨j, by simpa using hj1, hj2⟩

/-- Claim C6 counterexample: the AtomicNumberTable constructor applied to the
arbitrary sequence [2, 1] stores it as is, so the sorted-ascending/bijective
invariant fails on a constructor-built table. -/
theorem claim_C6_counterexample : ¬ tableInvariant ⟨[2, 1]⟩ := by
  intro h
  have hs := h.1
  simp only [List.sorted_cons] at hs
  have : (2 : ℤ) ≤ 1 := hs.1 1 (by simp)
  norm_num at this

/-- Any sorted, duplicate-free stored sequence yields an invariant table. -/
theorem tableInvariant_of_sorted_nodup (l : List ℤ) (hs : l.Sorted (· ≤ ·))
    (hn : l.Nodup) : tableInvariant ⟨l⟩ := by
  refine ⟨hs, ?_, ?_⟩
  · intro i z hiz
    exact zIndexOf_of_nodup l i z hn hiz
  · intro z i hzi
    exact zIndexOf_getElem z l i hzi

/-- Claim C6 (amended): every table built by the canonical construction
helper get_atomic_number_table_from_zs satisfies the invariant: entries
sorted ascending and index_to_z / z_to_index mutually inverse; the raw
constructor does not enforce it. -/
theorem claim_C6_amended_theorem (zs : List ℤ) :
    tableInvariant (get_atomic_number_table_from_zs zs) :=
  tableInvariant_of_sorted_nodup _ (Finset.sort_sorted _ _) (Finset.sort_nodup _ _)

/-- Witness for the amended claim C6 at a concrete input. -/
theorem claim_C6_witness : tableInvariant (get_atomic_number_table_from_zs [3, 1, 3]) :=
  claim_C6_amended_theorem [3, 1, 3]

/-- Claim C7: get_atomic_number_table_from_zs returns a strictly ascending
table containing exactly the distinct elements of the input, and
index_to_z (z_to_index z) = z for every z in the table. -/
theorem claim_C7_table_from_zs (zs : List ℤ) :
    (get_atomic_number_table_from_zs zs).zs.Sorted (· < ·) ∧
    (∀ z, z ∈ (get_atomic_number_table_from_zs zs).zs ↔ z ∈ zs) ∧
    (∀ z, z ∈ (get_atomic_number_table_from_zs zs).zs →
      ∃ i, (get_atomic_number_table_from_zs zs).z_to_index z = some i ∧
        (get_atomic_number_table_from_zs zs).index_to_z i = some z) := by
  refine ⟨?_, ?_, ?_⟩
  · show (zs.toFinset.sort (· ≤ ·)).Sorted (· < ·)
    exact Finset.sort_sorted_lt _
  · intro z
    simp [get_atomic_number_table_from_zs, Finset.mem_sort]
  · intro z hz
    cases hidx : zIndexOf z (get_atomic_number_table_from_zs zs).zs with
    | none =>
      exact absurd hz ((zIndexOf_eq_none_iff z _).1 hidx)
    | some i =>
      exact ⟨i, hidx, zIndexOf_getElem z _ i hidx⟩

/-- Witness for claim C7 at a concrete input. -/
theorem claim_C7_witness :
    (get_atomic_number_table_from_zs [5, 2, 2]).zs.Sorted (· < ·) ∧
    (∀ z, z ∈ (get_atomic_number_table_from_zs [5, 2, 2]).zs ↔ z ∈ [5, 2, 2]) ∧
    (∀ z, z ∈ (get_atomic_number_table_from_zs [5, 2, 2]).zs →
      ∃ i, (get_atomic_number_table_from_zs [5, 2, 2]).z_to_index z = some i ∧
        (get_atomic_number_table_from_zs [5, 2, 2]).index_to_z i = some z) :=
  claim_C7_table_from_zs [5, 2, 2]

/-- Claim C3: z_to_index fails (none, modelling the raised exception) exactly
when the queried atomic number is absent; consequently load_foundations fails
whenever some target element is absent from the foundation's element table. -/
theorem claim_C3_lookup_failure :
    (∀ (t : AtomicNumberTable) (z : ℤ), t.z_to_index z = none ↔ z ∉ t.zs) ∧
    (∀ (m mf : MaceModel) (tbl : AtomicNumberTable) (lr ush usc : Bool) (maxL : ℕ),
      mf.r_max = m.r_max → (∃ z ∈ tbl.zs, z ∉ mf.atomic_numbers) →
      load_foundations m mf tbl lr ush usc maxL = none) := by
  constructor
  · intro t z
    exact zIndexOf_eq_none_iff z t.zs
  · intro m mf tbl lr ush usc maxL hr habs
    have hnone : mapIndices mf.atomic_numbers tbl.zs = none :=
      mapIndices_eq_none _ _ habs
    simp [load_foundations, hr, hnone]

/-- Witness for claim C3 at concrete inputs. -/
theorem claim_C3_witness :
    ((AtomicNumberTable.mk [1, 8]).z_to_index 6 = none ↔ (6 : ℤ) ∉ [1, 8]) ∧
    load_foundations cexTarget cexFoundation ⟨[99]⟩ false false true 0 = none :=
  ⟨claim_C3_lookup_failure.1 ⟨[1, 8]⟩ 6,
   claim_C3_lookup_failure.2 cexTarget cexFoundation ⟨[99]⟩ false false true 0 rfl
     ⟨99, by simp, by simp [cexFoundation]⟩⟩

theorem npMean_nonneg {n : ℕ} (f : Fin n → ℝ) (h : ∀ i, 0 ≤ f i) : 0 ≤ npMean f :=
  div_nonneg (Finset.sum_nonneg fun i _ => h i) (Nat.cast_nonneg n)

theorem npMean_abs_mul {n : ℕ} (c : ℝ) (f : Fin n → ℝ) :
    npMean (fun i => |c * f i|) = |c| * npMean (fun i => |f i|) := by
  unfold npMean
  simp_rw [abs_mul]
  rw [← Finset.mul_sum, mul_div_assoc]

theorem sqrt_npMean_sq_mul {n : ℕ} (c : ℝ) (f : Fin n → ℝ) :
    Real.sqrt (npMean (fun i => (c * f i) ^ 2)) =
      |c| * Real.sqrt (npMean (fun i => (f i) ^ 2)) := by
  unfold npMean
  simp_rw [mul_pow]
  rw [← Finset.mul_sum, mul_div_assoc, Real.sqrt_mul (sq_nonneg c), Real.sqrt_sq_eq_abs]

theorem sum_cauchy_schwarz_ones {n : ℕ} (a : Fin n → ℝ) :
    (∑ i, a i) ^ 2 ≤ (n : ℝ) * ∑ i, (a i) ^ 2 := by
  have h := Finset.sum_mul_sq_le_sq_mul_sq Finset.univ (fun _ => (1 : ℝ)) a
  simpa [Finset.card_univ] using h

theorem sum_sq_diff_identity {n : ℕ} (a : Fin n → ℝ) :
    ∑ i, ∑ j, (a i - a j) ^ 2 =
      2 * ((n : ℝ) * (∑ i, (a i) ^ 2) - (∑ i, a i) ^ 2) := by
  have hinner : ∀ i, ∑ j, (a i - a j) ^ 2 =
      (n : ℝ) * (a i) ^ 2 - 2 * a i * (∑ j, a j) + ∑ j, (a j) ^ 2 := by
    intro i
    have : ∀ j, (a i - a j) ^ 2 = (a i) ^ 2 - 2 * a i * a j + (a j) ^ 2 := by
      intro j
      ring
    simp_rw [this]
    rw [Finset.sum_add_distrib, Finset.sum_sub_distrib, ← Finset.mul_sum,
      Finset.sum_const, Finset.card_univ, Fintype.card_fin, nsmul_eq_mul]
  simp_rw [hinner]
  have h1 : ∑ _i : Fin n, ((n : ℝ) * ∑ j, (a j) ^ 2) = (n : ℝ) * ((n : ℝ) * ∑ j, (a j) ^ 2) := by
    rw [Finset.sum_const, Finset.card_univ, Fintype.card_fin, nsmul_eq_mul]
  have h2 : ∑ i, 2 * a i * (∑ j, a j) = 2 * (∑ j, a j) ^ 2 := by
    rw [← Finset.sum_mul, ← Finset.mul_sum, sq]
    ring
  have h3 : ∑ _i : Fin n, (∑ j, (a j) ^ 2) = (n : ℝ) * ∑ j, (a j) ^ 2 := by
    rw [Finset.sum_const, Finset.card_univ, Fintype.card_fin, nsmul_eq_mul]
  rw [Finset.sum_add_distrib, Finset.sum_sub_distrib, ← Finset.mul_sum, h2, h3]
  ring

/-- Claim C8: the RMSE dominates the MAE, both are nonnegative, and equality
forces all absolute entries to coincide. -/
theorem claim_C8_rmse_ge_mae {n : ℕ} (hn : 0 < n) (delta : Fin n → ℝ) :
    0 ≤ compute_mae delta ∧ compute_mae delta ≤ compute_rmse delta ∧
    (compute_rmse delta = compute_mae delta → ∀ i j, |delta i| = |delta j|) := by
  have hnR : (0 : ℝ) < n := Nat.cast_pos.2 hn
  have habs_sq : ∀ i : Fin n, |delta i| ^ 2 = (delta i) ^ 2 := fun i => sq_abs _
  have hS1 : 0 ≤ ∑ i, |delta i| := Finset.sum_nonneg fun i _ => abs_nonneg _
  have hmae_nonneg : 0 ≤ compute_mae delta :=
    npMean_nonneg _ fun i => abs_nonneg _
  have hmean2_nonneg : 0 ≤ npMean (fun i => (delta i) ^ 2) :=
    npMean_nonneg _ fun i => sq_nonneg _
  have hcs : (∑ i, |delta i|) ^ 2 ≤ (n : ℝ) * ∑ i, (delta i) ^ 2 := by
    have := sum_cauchy_schwarz_ones (fun i => |delta i|)
    simp_rw [habs_sq] at this
    exact this
  have hsq_le : compute_mae delta ^ 2 ≤ npMean (fun i => (delta i) ^ 2) := by
    unfold compute_mae npMean
    rw [div_pow]
    have h1 : ((n : ℝ) * ∑ i, (delta i) ^ 2) / (n : ℝ) ^ 2 = (∑ i, (delta i) ^ 2) / n := by
      rw [sq]
      rw [mul_div_mul_left _ _ hnR.ne']
    calc (∑ i, |delta i|) ^ 2 / (n : ℝ) ^ 2
        ≤ ((n : ℝ) * ∑ i, (delta i) ^ 2) / (n : ℝ) ^ 2 := by
          apply div_le_div_of_nonneg_right hcs
          positivity
      _ = (∑ i, (delta i) ^ 2) / n := h1
  refine ⟨hmae_nonneg, ?_, ?_⟩
  · unfold compute_rmse
    rw [Real.le_sqrt hmae_nonneg hmean2_nonneg]
    exact hsq_le
  · intro hEq i j
    have hsq : npMean (fun i => (delta i) ^ 2) = compute_mae delta ^ 2 := by
      have := congrArg (· ^ 2) hEq
      simpa [compute_rmse, Real.sq_sqrt hmean2_nonneg] using this
    have hkey : (n : ℝ) * (∑ i, (delta i) ^ 2) = (∑ i, |delta i|) ^ 2 := by
      have h2 : (∑ i, (delta i) ^ 2) / n = ((∑ i, |delta i|) / n) ^ 2 := hsq
      field_simp at h2
      nlinarith [h2]
    have hzero : ∑ i, ∑ j, (|delta i| - |delta j|) ^ 2 = 0 := by
      have hident := sum_sq_diff_identity (fun i => |delta i|)
      simp_rw [habs_sq] at hident
      rw [hident, hkey]
      ring
    have hterm : ∀ i ∈ Finset.univ, (0 : ℝ) ≤ ∑ j, (|delta i| - |delta j|) ^ 2 :=
      fun i _ => Finset.sum_nonneg fun j _ => sq_nonneg _
    have houter := (Finset.sum_eq_zero_iff_of_nonneg hterm).1 hzero i (Finset.mem_univ i)
    have hterm2 : ∀ j ∈ Finset.univ, (0 : ℝ) ≤ (|delta i| - |delta j|) ^ 2 :=
      fun j _ => sq_nonneg _
    have hij := (Finset.sum_eq_zero_iff_of_nonneg hterm2).1 houter j (Finset.mem_univ j)
    have := pow_eq_zero_iff (n := 2) (by norm_num) |>.1 hij
    linarith [this]

/-- Witness for claim C8 at a concrete input. -/
theorem claim_C8_witness :
    0 ≤ compute_mae ![(2 : ℝ)] ∧ compute_mae ![(2 : ℝ)] ≤ compute_rmse ![(2 : ℝ)] ∧
    (compute_rmse ![(2 : ℝ)] = compute_mae ![(2 : ℝ)] →
      ∀ i j, |![(2 : ℝ)] i| = |![(2 : ℝ)] j|) :=
  claim_C8_rmse_ge_mae (by norm_num) ![(2 : ℝ)]

theorem guard_ratio_bound (mD T A ε : ℝ) (hm : 0 ≤ mD) (hT : 0 < T) (hA : 0 < A)
    (hε : 0 < ε) :
    |A * mD / (A * T + ε) * 100 - mD / (T + ε) * 100| ≤
      100 * mD * ε * (A + 1) / (A * T ^ 2) := by
  have hden1 : 0 < A * T + ε := by positivity
  have hden2 : 0 < T + ε := by positivity
  have key : A * mD / (A * T + ε) * 100 - mD / (T + ε) * 100
      = 100 * mD * ε * (A - 1) / ((A * T + ε) * (T + ε)) := by
    field_simp
    ring
  rw [key, abs_div, abs_of_pos (mul_pos hden1 hden2)]
  have habs1 : |A - 1| ≤ A + 1 := by
    rw [abs_le]
    constructor <;> linarith
  have hnum : |100 * mD * ε * (A - 1)| ≤ 100 * mD * ε * (A + 1) := by
    rw [abs_mul, abs_of_nonneg (by positivity : (0 : ℝ) ≤ 100 * mD * ε)]
    exact mul_le_mul_of_nonneg_left habs1 (by positivity)
  have hden_ge : A * T ^ 2 ≤ (A * T + ε) * (T + ε) := by
    nlinarith [mul_pos hA hT, hε, hT]
  exact div_le_div₀ (by positivity) hnum (by positivity) hden_ge

/-- Claim C9: scaling delta and target_val by the same nonzero constant
changes compute_rel_mae and compute_rel_rmse by at most an explicit amount
proportional to the 1e-9 denominator guard. -/
theorem claim_C9_rel_scale_invariance {n m : ℕ} (delta : Fin n → ℝ)
    (target_val : Fin m → ℝ) (c : ℝ) (hc : c ≠ 0)
    (hTm : 0 < compute_mae target_val) (hTr : 0 < compute_rmse target_val) :
    |compute_rel_mae (fun i => c * delta i) (fun i => c * target_val i) -
        compute_rel_mae delta target_val| ≤
      100 * compute_mae delta * 1e-9 * (|c| + 1) /
        (|c| * compute_mae target_val ^ 2) ∧
    |compute_rel_rmse (fun i => c * delta i) (fun i => c * target_val i) -
        compute_rel_rmse delta target_val| ≤
      100 * compute_rmse delta * 1e-9 * (|c| + 1) /
        (|c| * compute_rmse target_val ^ 2) := by
  have hA : 0 < |c| := abs_pos.2 hc
  have hε : (0 : ℝ) < 1e-9 := by norm_num
  constructor
  · have h1 : compute_rel_mae (fun i => c * delta i) (fun i => c * target_val i) =
        |c| * npMean (fun i => |delta i|) /
          (|c| * npMean (fun i => |target_val i|) + 1e-9) * 100 := by
      unfold compute_rel_mae
      rw [npMean_abs_mul, npMean_abs_mul]
    rw [h1]
    have := guard_ratio_bound (npMean fun i => |delta i|)
      (npMean fun i => |target_val i|) |c| 1e-9
      (npMean_nonneg _ fun i => abs_nonneg _) hTm hA hε
    exact this
  · have h1 : compute_rel_rmse (fun i => c * delta i) (fun i => c * target_val i) =
        |c| * Real.sqrt (npMean (fun i => (delta i) ^ 2)) /
          (|c| * Real.sqrt (npMean (fun i => (target_val i) ^ 2)) + 1e-9) * 100 := by
      unfold compute_rel_rmse
      rw [sqrt_npMean_sq_mul, sqrt_npMean_sq_mul]
    rw [h1]
    have := guard_ratio_bound (Real.sqrt (npMean fun i => (delta i) ^ 2))
      (Real.sqrt (npMean fun i => (target_val i) ^ 2)) |c| 1e-9
      (Real.sqrt_nonneg _) hTr hA hε
    exact this

/-- Witness for claim C9 at a concrete input. -/
theorem claim_C9_witness :
    |compute_rel_mae (fun i => 2 * ![(1 : ℝ)] i) (fun i => 2 * ![(1 : ℝ)] i) -
        compute_rel_mae ![(1 : ℝ)] ![(1 : ℝ)]| ≤
      100 * compute_mae ![(1 : ℝ)] * 1e-9 * (|(2 : ℝ)| + 1) /
        (|(2 : ℝ)| * compute_mae ![(1 : ℝ)] ^ 2) ∧
    |compute_rel_rmse (fun i => 2 * ![(1 : ℝ)] i) (fun i => 2 * ![(1 : ℝ)] i) -
        compute_rel_rmse ![(1 : ℝ)] ![(1 : ℝ)]| ≤
      100 * compute_rmse ![(1 : ℝ)] * 1e-9 * (|(2 : ℝ)| + 1) /
        (|(2 : ℝ)| * compute_rmse ![(1 : ℝ)] ^ 2) :=
  claim_C9_rel_scale_invariance ![(1 : ℝ)] ![(1 : ℝ)] 2 (by norm_num)
    (by
      unfold compute_mae npMean
      simp [Fin.sum_univ_one])
    (by
      unfold compute_rmse npMean
      simp [Fin.sum_univ_one])

/-- Claim C10: compute_c returns the fraction of entries strictly below the
threshold in absolute value; it lies in [0, 1] and boundary entries are not
counted. -/
theorem claim_C10_compute_c {n : ℕ} (hn : 0 < n) (delta : Fin n → ℝ) (eta : ℝ) :
    compute_c delta eta =
      ((Finset.univ.filter (fun i => |delta i| < eta)).card : ℝ) / n ∧
    0 ≤ compute_c delta eta ∧ compute_c delta eta ≤ 1 ∧
    (∀ i, |delta i| = eta → i ∉ Finset.univ.filter (fun i => |delta i| < eta)) := by
  have hnR : (0 : ℝ) < n := Nat.cast_pos.2 hn
  have hcount : compute_c delta eta =
      ((Finset.univ.filter (fun i => |delta i| < eta)).card : ℝ) / n := by
    unfold compute_c npMean
    rw [Finset.sum_boole]
  refine ⟨hcount, ?_, ?_, ?_⟩
  · rw [hcount]
    positivity
  · rw [hcount]
    rw [div_le_one hnR]
    have hle : (Finset.univ.filter (fun i => |delta i| < eta)).card ≤ n := by
      calc (Finset.univ.filter (fun i => |delta i| < eta)).card
          ≤ Finset.univ.card := Finset.card_filter_le _ _
        _ = n := by simp
    exact_mod_cast hle
  · intro i hEq hmem
    rw [Finset.mem_filter] at hmem
    exact absurd (hEq ▸ hmem.2) (lt_irrefl eta)

/-- Witness for claim C10 at a concrete input. -/
theorem claim_C10_witness :
    compute_c ![(0 : ℝ)] 1 =
      ((Finset.univ.filter (fun i => |![(0 : ℝ)] i| < 1)).card : ℝ) / ((1 : ℕ) : ℝ) ∧
    0 ≤ compute_c ![(0 : ℝ)] 1 ∧ compute_c ![(0 : ℝ)] 1 ≤ 1 ∧
    (∀ i, |![(0 : ℝ)] i| = 1 → i ∉ Finset.univ.filter (fun i => |![(0 : ℝ)] i| < 1)) :=
  claim_C10_compute_c (by norm_num) ![(0 : ℝ)] 1

theorem join_range_chunks {α : Type} (m : ℕ) : ∀ (w : List α) (k : ℕ),
    w.length = m * k →
    ((List.range m).map (fun a => (w.drop (a * k)).take k)).flatten = w := by
  induction m with
  | zero =>
    intro w k h
    have hw : w.length = 0 := by simpa using h
    simp [List.length_eq_zero.1 hw]
  | succ m ih =>
    intro w k h
    rw [List.range_succ_eq_map, List.map_cons, List.map_map, List.flatten_cons]
    have hmap : (List.range m).map ((fun a => (w.drop (a * k)).take k) ∘ Nat.succ) =
        (List.range m).map (fun a => ((w.drop k).drop (a * k)).take k) := by
      apply List.map_congr_left
      intro a _
      simp only [Function.comp]
      rw [List.drop_drop]
      congr 2
      rw [Nat.succ_eq_add_one]
      ring
    rw [hmap]
    have hlen : (w.drop k).length = m * k := by
      rw [List.length_drop, h, Nat.succ_mul, Nat.add_sub_cancel]
    rw [ih (w.drop k) k hlen]
    simp [List.take_append_drop]

theorem window_chunks_flatten {α : Type} (w : List α) (A k m : ℕ)
    (hA : A + m * k ≤ w.length) :
    ((List.range m).map (fun s => (w.drop (A + s * k)).take k)).flatten =
      (w.drop A).take (m * k) := by
  have hw2 : ((w.drop A).take (m * k)).length = m * k := by
    rw [List.length_take, List.length_drop]
    omega
  rw [← join_range_chunks m ((w.drop A).take (m * k)) k hw2]
  congr 1
  apply List.map_congr_left
  intro s hs
  rw [List.mem_range] at hs
  have hsk : s * k + k ≤ m * k := by
    have : (s + 1) * k ≤ m * k := Nat.mul_le_mul_right k hs
    rwa [Nat.succ_mul] at this
  rw [List.drop_take, List.drop_drop, List.take_take]
  congr 1
  omega

theorem windowed_flatten_getElem {α : Type} (w : List α) (k : ℕ) :
    ∀ (indices : List ℕ), (∀ i ∈ indices, i * k + k ≤ w.length) →
    ∀ (s c : ℕ), c < k →
    ((indices.map (fun i => (w.drop (i * k)).take k)).flatten)[s * k + c]? =
      indices[s]?.bind (fun i => w[i * k + c]?) := by
  intro indices
  induction indices with
  | nil =>
    intro _ s c _
    simp
  | cons i0 rest ih =>
    intro hw s c hc
    have hlen0 : ((w.drop (i0 * k)).take k).length = k := by
      have := hw i0 (by simp)
      rw [List.length_take, List.length_drop]
      omega
    rw [List.map_cons, List.flatten_cons]
    cases s with
    | zero =>
      rw [List.getElem?_append]
      rw [if_pos (by omega : 0 * k + c < ((w.drop (i0 * k)).take k).length)]
      rw [List.getElem?_take, if_pos (by omega : 0 * k + c < k), List.getElem?_drop]
      simp [Nat.zero_mul, Nat.zero_add]
    | succ s2 =>
      have hidx : ((w.drop (i0 * k)).take k).length ≤ Nat.succ s2 * k + c := by
        rw [hlen0, Nat.succ_mul]
        omega
      rw [List.getElem?_append, if_neg (by omega : ¬ (Nat.succ s2 * k + c < ((w.drop (i0 * k)).take k).length))]
      have harith : Nat.succ s2 * k + c - ((w.drop (i0 * k)).take k).length = s2 * k + c := by
        rw [hlen0, Nat.succ_mul]
        omega
      rw [harith]
      rw [ih (fun i hi => hw i (by simp [hi])) s2 c hc]
      simp

theorem mapIndices_bounds (zs : List ℤ) : ∀ (l : List ℤ) (is : List ℕ),
    mapIndices zs l = some is → ∀ i ∈ is, i < zs.length := by
  intro l
  induction l with
  | nil =>
    intro is h i hi
    simp only [mapIndices, Option.some.injEq] at h
    subst h
    simp at hi
  | cons a rest ih =>
    intro is h i hi
    simp only [mapIndices] at h
    cases hza : zIndexOf a zs with
    | none => rw [hza] at h; exact absurd h (by simp)
    | some j =>
      rw [hza] at h
      cases hrest : mapIndices zs rest with
      | none => rw [hrest] at h; exact absurd h (by simp)
      | some is2 =>
        rw [hrest] at h
        simp at h
        subst h
        rcases List.mem_cons.1 hi with hij | hi2
        · subst hij
          exact zIndexOf_lt_length a zs i hza
        · exact ih is2 hrest i hi2

theorem zipTransform_getElem_lt {α : Type} (f : α → α → Option α) :
    ∀ (n : ℕ) (ts gs rs : List α), zipTransform f n ts gs = some rs →
    ∀ i, i < n → ∀ t, ts[i]? = some t →
    ∃ g r, gs[i]? = some g ∧ f t g = some r ∧ rs[i]? = some r := by
  intro n
  induction n with
  | zero =>
    intro ts gs rs _ i hi
    omega
  | succ n ih =>
    intro ts gs rs h i hi t ht
    match ts, gs with
    | [], _ => simp [zipTransform] at h
    | _ :: _, [] => simp [zipTransform] at h
    | t0 :: ts2, g0 :: gs2 =>
      simp only [zipTransform] at h
      cases hf : f t0 g0 with
      | none => rw [hf] at h; exact absurd h (by simp)
      | some r0 =>
        rw [hf] at h
        cases hrec : zipTransform f n ts2 gs2 with
        | none => rw [hrec] at h; exact absurd h (by simp)
        | some rest =>
          rw [hrec] at h
          simp at h
          subst h
          cases i with
          | zero =>
            simp at ht
            subst ht
            exact ⟨g0, r0, by simp, hf, by simp⟩
          | succ i2 =>
            simp at ht
            rcases ih ts2 gs2 rest hrec i2 (by omega) t ht with ⟨g, r, hg, hfr, hr⟩
            exact ⟨g, r, by simpa using hg, hfr, by simpa using hr⟩

theorem reindexDim0_cons_mapSucc {α : Type} (b : α) (bs : List α) :
    ∀ (l : List ℕ), reindexDim0 (b :: bs) (l.map (· + 1)) = reindexDim0 bs l := by
  intro l
  induction l with
  | nil => rfl
  | cons s rest ih =>
    simp only [List.map_cons, reindexDim0, List.getElem?_cons_succ, ih]

theorem reindexDim0_range {α : Type} (bs : List α) :
    reindexDim0 bs (List.range bs.length) = some bs := by
  induction bs with
  | nil => rfl
  | cons b bs2 ih =>
    rw [List.length_cons, List.range_succ_eq_map]
    have hsucc : (List.range bs2.length).map Nat.succ =
        (List.range bs2.length).map (· + 1) := by
      apply List.map_congr_left
      intro a _
      rfl
    simp only [reindexDim0, List.getElem?_cons_zero, hsucc,
      reindexDim0_cons_mapSucc, ih]

theorem load_foundations_inversion
    (m mf : MaceModel) (tbl : AtomicNumberTable) (lr ush usc : Bool) (maxL : ℕ)
    (m' : MaceModel)
    (hload : load_foundations m mf tbl lr ush usc maxL = some m') :
    mf.r_max = m.r_max ∧
    ∃ indices inters np0 np1 tp0 fp0 tp1 fp1 newSS,
      mapIndices mf.atomic_numbers tbl.zs = some indices ∧
      zipTransform (fun t g => some (transformInteraction m.radial_out_dim
          (mf.node_embedding_weight.length / mf.atomic_numbers.length)
          mf.atomic_numbers.length (m.lmax + 1) indices.length indices t g))
        m.num_interactions m.interactions mf.interactions = some inters ∧
      m.products[0]? = some tp0 ∧
      mf.products[0]? = some fp0 ∧
      transformProduct indices (maxL + 1) tp0 fp0 = some np0 ∧
      (m.products.set 0 np0)[1]? = some tp1 ∧
      mf.products[1]? = some fp1 ∧
      transformProduct indices 1 tp1 fp1 = some np1 ∧
      applyScaleShift mf.scale_shift m.scale_shift usc ush = some newSS ∧
      m'.r_max = m.r_max ∧
      m'.atomic_numbers = m.atomic_numbers ∧
      m'.node_embedding_weight = (reindexFlat mf.node_embedding_weight
          (mf.node_embedding_weight.length / mf.atomic_numbers.length) indices).map
        (· / Real.sqrt ((mf.atomic_numbers.length : ℝ) / (indices.length : ℝ))) ∧
      m'.bessel_fn_className = m.bessel_fn_className ∧
      m'.bessel_weights = (if m.bessel_fn_className = "BesselBasis" then
          mf.bessel_weights else m.bessel_weights) ∧
      m'.radial_out_dim = m.radial_out_dim ∧
      m'.lmax = m.lmax ∧
      m'.num_interactions = m.num_interactions ∧
      m'.interactions = inters ∧
      m'.products = (m.products.set 0 np0).set 1 np1 ∧
      m'.readout0_linear_weight = (if lr then mf.readout0_linear_weight
        else m.readout0_linear_weight) ∧
      m'.readout1_linear1_weight = (if lr then mf.readout1_linear1_weight
        else m.readout1_linear1_weight) ∧
      m'.readout1_linear2_weight = (if lr then mf.readout1_linear2_weight
        else m.readout1_linear2_weight) ∧
      m'.scale_shift = newSS := by
  unfold load_foundations at hload
  split at hload
  case isFalse hr => exact absurd hload (by simp)
  case isTrue hr =>
    refine ⟨hr, ?_⟩
    simp only [bind, Option.bind_eq_some, Option.pure_def, Option.some.injEq] at hload
    obtain ⟨indices, hidx, hload⟩ := hload
    obtain ⟨inters, hint, hload⟩ := hload
    obtain ⟨tp0, htp0, hload⟩ := hload
    obtain ⟨fp0, hfp0, hload⟩ := hload
    obtain ⟨np0, hnp0, hload⟩ := hload
    obtain ⟨tp1, htp1, hload⟩ := hload
    obtain ⟨fp1, hfp1, hload⟩ := hload
    obtain ⟨np1, hnp1, hload⟩ := hload
    obtain ⟨newSS, hss, hm⟩ := hload
    subst hm
    exact ⟨indices, inters, np0, np1, tp0, fp0, tp1, fp1, newSS,
      hidx, hint, htp0, hfp0, hnp0, htp1, hfp1, hnp1, hss,
      rfl, rfl, rfl, rfl, rfl, rfl, rfl, rfl, rfl, rfl, rfl, rfl, rfl, rfl⟩

theorem load_foundations_cex_eval :
    load_foundations cexTarget cexFoundation ⟨[1]⟩ false false true 0 =
      some cexExpected := by
  unfold load_foundations cexTarget cexFoundation cexExpected
  norm_num [mapIndices, zIndexOf, zipTransform, transformInteraction,
    transformProduct, transformContraction, reindexDim0, reindexFlat,
    reindexSkip3, reindexSkip4, applyScaleShift, Real.sqrt_one]
  rw [if_neg (by decide : ¬ ("SomeFutureInteractionBlock" = "RealAgnosticResidualInteractionBlock"))]
  simp [List.range_succ]

/-- Claim C1: the node embedding weight written into the target is the
foundation's flat tensor viewed as per-species rows of length ch, re-indexed
by the target-to-foundation mapping, flattened back (entry (s, c) of the
result is entry (indices[s], c) of the foundation tensor), and rescaled by
the sqrt(foundation_species/target_species) factor (a division, as in the
source). -/
theorem claim_C1_node_embedding
    (m mf : MaceModel) (tbl : AtomicNumberTable) (lr ush usc : Bool) (maxL : ℕ)
    (m' : MaceModel) (indices : List ℕ) (ch : ℕ)
    (hload : load_foundations m mf tbl lr ush usc maxL = some m')
    (hidx : mapIndices mf.atomic_numbers tbl.zs = some indices)
    (hch : mf.node_embedding_weight.length = mf.atomic_numbers.length * ch)
    (hnf : 0 < mf.atomic_numbers.length)
    (s c : ℕ) (hs : s < indices.length) (hc : c < ch) :
    m'.node_embedding_weight.length = indices.length * ch ∧
    m'.node_embedding_weight[s * ch + c]? =
      (indices[s]?.bind (fun i => mf.node_embedding_weight[i * ch + c]?)).map
        (· / Real.sqrt ((mf.atomic_numbers.length : ℝ) / (indices.length : ℝ))) := by
  obtain ⟨hr, indices2, inters, np0, np1, tp0, fp0, tp1, fp1, newSS,
    hidx2, hint, htp0, hfp0, hnp0, htp1, hfp1, hnp1, hss,
    hfr, hfan, hfnode, hfbc, hfbw, hfrad, hflmax, hfni, hfint, hfprod,
    hfr0, hfr11, hfr12, hfss⟩ :=
    load_foundations_inversion m mf tbl lr ush usc maxL m' hload
  have hind : indices2 = indices := by
    rw [hidx] at hidx2
    exact (Option.some.inj hidx2).symm
  subst hind
  have hchdiv : mf.node_embedding_weight.length / mf.atomic_numbers.length = ch := by
    rw [hch]
    exact Nat.mul_div_cancel_left ch hnf
  rw [hchdiv] at hfnode
  have hvalid : ∀ i ∈ indices2, i * ch + ch ≤ mf.node_embedding_weight.length := by
    intro i hi
    have hilt : i < mf.atomic_numbers.length := mapIndices_bounds _ _ _ hidx i hi
    have h2 : i * ch + ch ≤ mf.atomic_numbers.length * ch := by
      calc i * ch + ch = (i + 1) * ch := by ring
        _ ≤ mf.atomic_numbers.length * ch := Nat.mul_le_mul_right ch hilt
    rw [hch]
    exact h2
  constructor
  · rw [hfnode, List.length_map, reindexFlat, List.length_flatten, List.map_map]
    have hmapc : (indices2.map (List.length ∘ fun s =>
        (mf.node_embedding_weight.drop (s * ch)).take ch)) =
        indices2.map (fun _ => ch) := by
      apply List.map_congr_left
      intro i hi
      simp only [Function.comp, List.length_take, List.length_drop]
      have := hvalid i hi
      omega
    rw [hmapc]
    have : ∀ l : List ℕ, (l.map (fun _ => ch)).sum = l.length * ch := by
      intro l
      induction l with
      | nil => simp
      | cons i0 rest ih =>
        simp only [List.map_cons, List.sum_cons, List.length_cons, ih]
        ring
    exact this indices2
  · rw [hfnode, List.getElem?_map, reindexFlat,
      windowed_flatten_getElem mf.node_embedding_weight ch indices2 hvalid s c hc]

/-- Witness for claim C1 at a concrete input. -/
theorem claim_C1_witness :
    cexExpected.node_embedding_weight.length = ([0] : List ℕ).length * 1 ∧
    cexExpected.node_embedding_weight[0 * 1 + 0]? =
      ((([0] : List ℕ)[0]?).bind
        (fun i => cexFoundation.node_embedding_weight[i * 1 + 0]?)).map
        (· / Real.sqrt ((cexFoundation.atomic_numbers.length : ℝ) /
          (([0] : List ℕ).length : ℝ))) :=
  claim_C1_node_embedding cexTarget cexFoundation ⟨[1]⟩ false false true 0
    cexExpected [0] 1 load_foundations_cex_eval rfl rfl (by decide) 0 0
    (by decide) (by decide)

/-- Claim C4 counterexample: with a target interaction block of an
unrecognized class, the skip_tp copy is not skipped: the else branch of the
type check overwrites the target's skip_tp weight (here [0] becomes [5]),
so the unsupported interaction subclass does not leave the weights
unchanged. -/
theorem claim_C4_counterexample :
    ∃ m', load_foundations cexTarget cexFoundation ⟨[1]⟩ false false true 0 =
        some m' ∧
      ∃ b0 b1, cexTarget.interactions[0]? = some b0 ∧
        m'.interactions[0]? = some b1 ∧
        b0.className ≠ "RealAgnosticResidualInteractionBlock" ∧
        b1.skip_tp_weight ≠ b0.skip_tp_weight := by
  refine ⟨cexExpected, load_foundations_cex_eval, ?_⟩
  refine ⟨_, _, rfl, rfl, by decide, ?_⟩
  intro hEq
  norm_num [cexExpected, cexTarget] at hEq

/-- Claim C4 (amended): an unsupported radial-basis subclass silently skips
the bessel-weight copy (the target's bessel weights are left unchanged, no
error is raised); an interaction block whose class is not
RealAgnosticResidualInteractionBlock does not skip its copy: it takes the
non-residual branch, overwriting the target's skip_tp weight with the 4-D
reshape/re-index/rescale of the foundation's. -/
theorem claim_C4_amended_theorem
    (m mf : MaceModel) (tbl : AtomicNumberTable) (lr ush usc : Bool) (maxL : ℕ)
    (m' : MaceModel) (indices : List ℕ)
    (hload : load_foundations m mf tbl lr ush usc maxL = some m')
    (hidx : mapIndices mf.atomic_numbers tbl.zs = some indices) :
    (m.bessel_fn_className ≠ "BesselBasis" → m'.bessel_weights = m.bessel_weights) ∧
    (∀ i tb, i < m.num_interactions → m.interactions[i]? = some tb →
      tb.className ≠ "RealAgnosticResidualInteractionBlock" →
      ∃ fb b, mf.interactions[i]? = some fb ∧ m'.interactions[i]? = some b ∧
        b.skip_tp_weight = (reindexSkip4 fb.skip_tp_weight
            (mf.node_embedding_weight.length / mf.atomic_numbers.length)
            (m.lmax + 1) mf.atomic_numbers.length indices).map
          (· / Real.sqrt ((mf.atomic_numbers.length : ℝ) / (indices.length : ℝ)))) := by
  obtain ⟨hr, indices2, inters, np0, np1, tp0, fp0, tp1, fp1, newSS,
    hidx2, hint, htp0, hfp0, hnp0, htp1, hfp1, hnp1, hss,
    hfr, hfan, hfnode, hfbc, hfbw, hfrad, hflmax, hfni, hfint, hfprod,
    hfr0, hfr11, hfr12, hfss⟩ :=
    load_foundations_inversion m mf tbl lr ush usc maxL m' hload
  rw [hidx] at hidx2
  have hind : indices = indices2 := Option.some.inj hidx2
  subst hind
  constructor
  · intro hnb
    rw [hfbw, if_neg hnb]
  · intro i tb hi htb hcls
    obtain ⟨fb, r, hfb, hfr2, hr2⟩ :=
      zipTransform_getElem_lt _ m.num_interactions m.interactions mf.interactions
        inters hint i hi tb htb
    have hrr : r = transformInteraction m.radial_out_dim
        (mf.node_embedding_weight.length / mf.atomic_numbers.length)
        mf.atomic_numbers.length (m.lmax + 1) indices.length indices tb fb :=
      (Option.some.inj hfr2).symm
    refine ⟨fb, r, hfb, by rw [hfint]; exact hr2, ?_⟩
    rw [hrr]
    simp only [transformInteraction, if_neg hcls]

/-- Witness for the amended claim C4 at a concrete input. -/
theorem claim_C4_witness :
    (cexTarget.bessel_fn_className ≠ "BesselBasis" →
      cexExpected.bessel_weights = cexTarget.bessel_weights) ∧
    (∀ i tb, i < cexTarget.num_interactions →
      cexTarget.interactions[i]? = some tb →
      tb.className ≠ "RealAgnosticResidualInteractionBlock" →
      ∃ fb b, cexFoundation.interactions[i]? = some fb ∧
        cexExpected.interactions[i]? = some b ∧
        b.skip_tp_weight = (reindexSkip4 fb.skip_tp_weight
            (cexFoundation.node_embedding_weight.length /
              cexFoundation.atomic_numbers.length)
            (cexTarget.lmax + 1) cexFoundation.atomic_numbers.length [0]).map
          (· / Real.sqrt ((cexFoundation.atomic_numbers.length : ℝ) /
            (([0] : List ℕ).length : ℝ)))) :=
  claim_C4_amended_theorem cexTarget cexFoundation ⟨[1]⟩ false false true 0
    cexExpected [0] load_foundations_cex_eval rfl

/-- Claim C5: a load_foundations call mutates only the target model (the
foundation component of the state is unchanged), returns the mutated target
model itself, and leaves the target's unwritten fields (identity fields, and
the readout weights when load_readout is false) unchanged. -/
theorem claim_C5_frame
    (p : ModelPair) (tbl : AtomicNumberTable) (lr ush usc : Bool) (maxL : ℕ)
    (res : ModelPair × MaceModel)
    (hcall : load_foundations_call p tbl lr ush usc maxL = some res) :
    res.1.foundation = p.foundation ∧
    res.2 = res.1.target ∧
    res.1.target.r_max = p.target.r_max ∧
    res.1.target.atomic_numbers = p.target.atomic_numbers ∧
    res.1.target.bessel_fn_className = p.target.bessel_fn_className ∧
    res.1.target.radial_out_dim = p.target.radial_out_dim ∧
    res.1.target.lmax = p.target.lmax ∧
    res.1.target.num_interactions = p.target.num_interactions ∧
    (lr = false →
      res.1.target.readout0_linear_weight = p.target.readout0_linear_weight ∧
      res.1.target.readout1_linear1_weight = p.target.readout1_linear1_weight ∧
      res.1.target.readout1_linear2_weight = p.target.readout1_linear2_weight) := by
  unfold load_foundations_call at hcall
  simp only [bind, Option.bind_eq_some, Option.pure_def, Option.some.injEq] at hcall
  obtain ⟨m2, hload, hres⟩ := hcall
  subst hres
  obtain ⟨hr, indices, inters, np0, np1, tp0, fp0, tp1, fp1, newSS,
    hidx, hint, htp0, hfp0, hnp0, htp1, hfp1, hnp1, hss,
    hfr, hfan, hfnode, hfbc, hfbw, hfrad, hflmax, hfni, hfint, hfprod,
    hfr0, hfr11, hfr12, hfss⟩ :=
    load_foundations_inversion p.target p.foundation tbl lr ush usc maxL m2 hload
  refine ⟨rfl, rfl, hfr, hfan, hfbc, hfrad, hflmax, hfni, ?_⟩
  intro hlr
  subst hlr
  exact ⟨by simpa using hfr0, by simpa using hfr11, by simpa using hfr12⟩

/-- Witness for claim C5 at a concrete input. -/
theorem claim_C5_witness :
    ((⟨cexExpected, cexFoundation⟩, cexExpected) :
        ModelPair × MaceModel).1.foundation =
      (⟨cexTarget, cexFoundation⟩ : ModelPair).foundation ∧
    ((⟨cexExpected, cexFoundation⟩, cexExpected) :
        ModelPair × MaceModel).2 =
      ((⟨cexExpected, cexFoundation⟩, cexExpected) :
        ModelPair × MaceModel).1.target ∧
    cexExpected.r_max = cexTarget.r_max ∧
    cexExpected.atomic_numbers = cexTarget.atomic_numbers ∧
    cexExpected.bessel_fn_className = cexTarget.bessel_fn_className ∧
    cexExpected.radial_out_dim = cexTarget.radial_out_dim ∧
    cexExpected.lmax = cexTarget.lmax ∧
    cexExpected.num_interactions = cexTarget.num_interactions ∧
    (false = false →
      cexExpected.readout0_linear_weight = cexTarget.readout0_linear_weight ∧
      cexExpected.readout1_linear1_weight = cexTarget.readout1_linear1_weight ∧
      cexExpected.readout1_linear2_weight = cexTarget.readout1_linear2_weight) :=
  claim_C5_frame ⟨cexTarget, cexFoundation⟩ ⟨[1]⟩ false false true 0
    (⟨cexExpected, cexFoundation⟩, cexExpected)
    (by simp [load_foundations_call, load_foundations_cex_eval])

theorem reindexFlat_id (w : List ℝ) (nf ch : ℕ) (h : w.length = nf * ch) :
    reindexFlat w ch (List.range nf) = w :=
  join_range_chunks nf w ch h

theorem reindexSkip3_id (w : List ℝ) (ch nf : ℕ)
    (h : w.length = ch * (nf * ch)) :
    reindexSkip3 w ch nf (List.range nf) = w := by
  unfold reindexSkip3
  have hinner : ∀ a ∈ List.range ch,
      ((List.range nf).map
        (fun s => (w.drop (a * (nf * ch) + s * ch)).take ch)).flatten =
      (w.drop (a * (nf * ch))).take (nf * ch) := by
    intro a ha
    rw [List.mem_range] at ha
    apply window_chunks_flatten
    calc a * (nf * ch) + nf * ch = (a + 1) * (nf * ch) := by ring
      _ ≤ ch * (nf * ch) := Nat.mul_le_mul_right _ ha
      _ = w.length := h.symm
  rw [List.map_congr_left hinner]
  exact join_range_chunks ch w (nf * ch) h

theorem reindexSkip4_id (w : List ℝ) (ch L nf : ℕ)
    (h : w.length = ch * (L * (nf * ch))) :
    reindexSkip4 w ch L nf (List.range nf) = w := by
  unfold reindexSkip4
  have hinner : ∀ a ∈ List.range ch,
      ((List.range L).map (fun e => ((List.range nf).map
        (fun s => (w.drop ((a * L + e) * (nf * ch) + s * ch)).take ch)).flatten)).flatten =
      (w.drop (a * (L * (nf * ch)))).take (L * (nf * ch)) := by
    intro a ha
    rw [List.mem_range] at ha
    have hmid : ∀ e ∈ List.range L,
        ((List.range nf).map
          (fun s => (w.drop ((a * L + e) * (nf * ch) + s * ch)).take ch)).flatten =
        (w.drop ((a * L + e) * (nf * ch))).take (nf * ch) := by
      intro e he
      rw [List.mem_range] at he
      apply window_chunks_flatten
      have hbound : a * L + e + 1 ≤ ch * L := by
        have h2 : (a + 1) * L ≤ ch * L := Nat.mul_le_mul_right L ha
        have h3 : a * L + L = (a + 1) * L := by ring
        omega
      calc (a * L + e) * (nf * ch) + nf * ch
          = (a * L + e + 1) * (nf * ch) := by ring
        _ ≤ (ch * L) * (nf * ch) := Nat.mul_le_mul_right _ hbound
        _ = ch * (L * (nf * ch)) := by ring
        _ = w.length := h.symm
    rw [List.map_congr_left hmid]
    have hoff : ∀ e ∈ List.range L,
        (w.drop ((a * L + e) * (nf * ch))).take (nf * ch) =
        (w.drop (a * (L * (nf * ch)) + e * (nf * ch))).take (nf * ch) := by
      intro e _
      congr 2
      ring
    rw [List.map_congr_left hoff]
    apply window_chunks_flatten
    calc a * (L * (nf * ch)) + L * (nf * ch) = (a + 1) * (L * (nf * ch)) := by ring
      _ ≤ ch * (L * (nf * ch)) := Nat.mul_le_mul_right _ ha
      _ = w.length := h.symm
  rw [List.map_congr_left hinner]
  exact join_range_chunks ch w (L * (nf * ch)) h

theorem map_div_one_real (l : List ℝ) : l.map (· / (1 : ℝ)) = l := by
  simp

theorem sqrt_ratio_self_eq_one (n : ℕ) (hn : 0 < n) :
    Real.sqrt ((n : ℝ) / (n : ℝ)) = 1 := by
  rw [div_self (Nat.cast_ne_zero.2 hn.ne'), Real.sqrt_one]

theorem applyScaleShift_some (fss tss : ScaleShift) (usc ush : Bool) :
    applyScaleShift (some fss) (some tss) usc ush =
      some (some { scale := if usc then fss.scale else tss.scale,
                   shift := if ush then fss.shift else tss.shift }) := by
  cases usc <;> cases ush <;> rfl

theorem applyScaleShift_none (tgt : Option ScaleShift) (usc ush : Bool) :
    applyScaleShift none tgt usc ush = some tgt := rfl

theorem transformContraction_inv (nf : ℕ) (tc fc r : Contraction)
    (hwm : fc.weights_max.length = nf)
    (hw : ∀ w ∈ fc.weights, w.length = nf)
    (h : transformContraction (List.range nf) tc fc = some r) :
    ∃ fw0 fw1, fc.weights[0]? = some fw0 ∧ fc.weights[1]? = some fw1 ∧
      r = { tc with weights_max := fc.weights_max,
                    weights := (tc.weights.set 0 fw0).set 1 fw1 } := by
  unfold transformContraction at h
  simp only [bind, Option.bind_eq_some, Option.pure_def, Option.some.injEq] at h
  obtain ⟨wm, hwm2, h⟩ := h
  obtain ⟨fw0, hfw0, h⟩ := h
  obtain ⟨fw1, hfw1, h⟩ := h
  obtain ⟨nw0, hnw0, h⟩ := h
  obtain ⟨nw1, hnw1, h⟩ := h
  obtain ⟨g0, hg0, h⟩ := h
  obtain ⟨g1, hg1, hr⟩ := h
  have hwm3 : wm = fc.weights_max := by
    have hid := reindexDim0_range fc.weights_max
    rw [hwm] at hid
    rw [hid] at hwm2
    exact (Option.some.inj hwm2).symm
  have hfw0len : fw0.length = nf := by
    apply hw
    rcases List.getElem?_eq_some.1 hfw0 with ⟨hlt, heq⟩
    exact heq ▸ List.getElem_mem hlt
  have hfw1len : fw1.length = nf := by
    apply hw
    rcases List.getElem?_eq_some.1 hfw1 with ⟨hlt, heq⟩
    exact heq ▸ List.getElem_mem hlt
  have hnw0id : nw0 = fw0 := by
    have hid := reindexDim0_range fw0
    rw [hfw0len] at hid
    rw [hid] at hnw0
    exact (Option.some.inj hnw0).symm
  have hnw1id : nw1 = fw1 := by
    have hid := reindexDim0_range fw1
    rw [hfw1len] at hid
    rw [hid] at hnw1
    exact (Option.some.inj hnw1).symm
  subst hwm3
  rw [← hnw0id] at hfw0
  rw [← hnw1id] at hfw1
  exact ⟨nw0, nw1, hfw0, hfw1, hr.symm⟩

theorem transformProduct_inv (indices : List ℕ) (maxRange : ℕ)
    (tp fp np : ProductBlock)
    (h : transformProduct indices maxRange tp fp = some np) :
    ∃ cs, zipTransform (fun t g => transformContraction indices t g) maxRange
        tp.contractions fp.contractions = some cs ∧
      np = { tp with contractions := cs, linear_weight := fp.linear_weight } := by
  unfold transformProduct at h
  simp only [bind, Option.bind_eq_some, Option.pure_def, Option.some.injEq] at h
  obtain ⟨cs, hcs, hnp⟩ := h
  exact ⟨cs, hcs, hnp.symm⟩

/-- Claim C2: with a target element table identical to the foundation's own
table (duplicate-free) and matching shapes, load_foundations is a
near-identity transform: the node-embedding rescale factor is 1 and every
copied tensor in the result equals the corresponding foundation tensor. -/
theorem claim_C2_identity_transplant
    (m mf : MaceModel) (tbl : AtomicNumberTable) (lr ush usc : Bool) (maxL : ℕ)
    (m' : MaceModel) (ch : ℕ)
    (hload : load_foundations m mf tbl lr ush usc maxL = some m')
    (htbl : tbl.zs = mf.atomic_numbers)
    (hnodup : mf.atomic_numbers.Nodup)
    (hnf : 0 < mf.atomic_numbers.length)
    (hch : mf.node_embedding_weight.length = mf.atomic_numbers.length * ch)
    (hlayer0 : ∀ fb ∈ mf.interactions,
      fb.conv_tp_weights.layer0.length ≤ m.radial_out_dim)
    (hskip : ∀ i tb fb, i < m.num_interactions → m.interactions[i]? = some tb →
      mf.interactions[i]? = some fb →
      (tb.className = "RealAgnosticResidualInteractionBlock" →
        fb.skip_tp_weight.length = ch * (mf.atomic_numbers.length * ch)) ∧
      (tb.className ≠ "RealAgnosticResidualInteractionBlock" →
        fb.skip_tp_weight.length =
          ch * ((m.lmax + 1) * (mf.atomic_numbers.length * ch))))
    (hcontr : ∀ fp ∈ mf.products, ∀ fc ∈ fp.contractions,
      fc.weights_max.length = mf.atomic_numbers.length ∧
      ∀ w ∈ fc.weights, w.length = mf.atomic_numbers.length) :
    Real.sqrt ((mf.atomic_numbers.length : ℝ) / (tbl.zs.length : ℝ)) = 1 ∧
    m'.node_embedding_weight = mf.node_embedding_weight ∧
    (m.bessel_fn_className = "BesselBasis" →
      m'.bessel_weights = mf.bessel_weights) ∧
    (∀ i tb fb, i < m.num_interactions → m.interactions[i]? = some tb →
      mf.interactions[i]? = some fb →
      m'.interactions[i]? = some { tb with
        linear_up_weight := fb.linear_up_weight
        avg_num_neighbors := fb.avg_num_neighbors
        conv_tp_weights := fb.conv_tp_weights
        linear_weight := fb.linear_weight
        skip_tp_weight := fb.skip_tp_weight }) ∧
    (∀ tp fp, m.products[0]? = some tp → mf.products[0]? = some fp →
      ∃ pb, m'.products[0]? = some pb ∧ pb.linear_weight = fp.linear_weight ∧
        ∀ j tc fc, j < maxL + 1 → tp.contractions[j]? = some tc →
          fp.contractions[j]? = some fc →
          ∃ fw0 fw1, fc.weights[0]? = some fw0 ∧ fc.weights[1]? = some fw1 ∧
            pb.contractions[j]? = some { tc with
              weights_max := fc.weights_max
              weights := (tc.weights.set 0 fw0).set 1 fw1 }) ∧
    (∀ tp fp, m.products[1]? = some tp → mf.products[1]? = some fp →
      ∃ pb, m'.products[1]? = some pb ∧ pb.linear_weight = fp.linear_weight ∧
        ∀ j tc fc, j < 1 → tp.contractions[j]? = some tc →
          fp.contractions[j]? = some fc →
          ∃ fw0 fw1, fc.weights[0]? = some fw0 ∧ fc.weights[1]? = some fw1 ∧
            pb.contractions[j]? = some { tc with
              weights_max := fc.weights_max
              weights := (tc.weights.set 0 fw0).set 1 fw1 }) ∧
    (lr = true →
      m'.readout0_linear_weight = mf.readout0_linear_weight ∧
      m'.readout1_linear1_weight = mf.readout1_linear1_weight ∧
      m'.readout1_linear2_weight = mf.readout1_linear2_weight) ∧
    (mf.scale_shift = none → m'.scale_shift = m.scale_shift) ∧
    (∀ fss tss, mf.scale_shift = some fss → m.scale_shift = some tss →
      m'.scale_shift = some { scale := if usc then fss.scale else tss.scale,
                              shift := if ush then fss.shift else tss.shift }) := by
  obtain ⟨hr, indices2, inters, np0, np1, tp0, fp0, tp1, fp1, newSS,
    hidx2, hint, htp0, hfp0, hnp0, htp1, hfp1, hnp1, hss,
    hfr, hfan, hfnode, hfbc, hfbw, hfrad, hflmax, hfni, hfint, hfprod,
    hfr0, hfr11, hfr12, hfss⟩ :=
    load_foundations_inversion m mf tbl lr ush usc maxL m' hload
  rw [htbl, mapIndices_self mf.atomic_numbers hnodup] at hidx2
  have hidrange : indices2 = List.range mf.atomic_numbers.length :=
    (Option.some.inj hidx2).symm
  subst hidrange
  have hchdiv : mf.node_embedding_weight.length / mf.atomic_numbers.length = ch := by
    rw [hch]
    exact Nat.mul_div_cancel_left ch hnf
  have hscale1 : Real.sqrt ((mf.atomic_numbers.length : ℝ) /
      ((List.range mf.atomic_numbers.length).length : ℝ)) = 1 := by
    rw [List.length_range]
    exact sqrt_ratio_self_eq_one _ hnf
  refine ⟨?_, ?_, ?_, ?_, ?_, ?_, ?_, ?_, ?_⟩
  · rw [htbl]
    exact sqrt_ratio_self_eq_one _ hnf
  · rw [hfnode, hchdiv, hscale1, map_div_one_real, reindexFlat_id _ _ _ hch]
  · intro hb
    rw [hfbw, if_pos hb]
  · intro i tb fb hi htb hfb
    obtain ⟨fb2, r, hfb2, hfr2, hr2⟩ :=
      zipTransform_getElem_lt _ m.num_interactions m.interactions mf.interactions
        inters hint i hi tb htb
    rw [hfb] at hfb2
    have hfbeq : fb = fb2 := Option.some.inj hfb2
    subst hfbeq
    have hfbmem : fb ∈ mf.interactions := by
      rcases List.getElem?_eq_some.1 hfb with ⟨hlt, heq⟩
      exact heq ▸ List.getElem_mem hlt
    have hconv : fb.conv_tp_weights.layer0.take m.radial_out_dim =
        fb.conv_tp_weights.layer0 :=
      List.take_of_length_le (hlayer0 fb hfbmem)
    have hsk := hskip i tb fb hi htb hfb
    have hrt : r = transformInteraction m.radial_out_dim ch
        mf.atomic_numbers.length (m.lmax + 1)
        (List.range mf.atomic_numbers.length).length
        (List.range mf.atomic_numbers.length) tb fb := by
      rw [hchdiv] at hfr2
      exact (Option.some.inj hfr2).symm
    rw [hfint, hr2, hrt]
    by_cases hcls : tb.className = "RealAgnosticResidualInteractionBlock"
    · have hlen3 := hsk.1 hcls
      simp only [transformInteraction, if_pos hcls, hconv, hscale1,
        map_div_one_real, reindexSkip3_id _ _ _ hlen3]
    · have hlen4 := hsk.2 hcls
      simp only [transformInteraction, if_neg hcls, hconv, hscale1,
        map_div_one_real, reindexSkip4_id _ _ _ _ hlen4]
  · intro tp fp htp hfp
    rw [htp0] at htp
    have htpeq : tp = tp0 := Option.some.inj htp.symm
    subst htpeq
    rw [hfp0] at hfp
    have hfpeq : fp = fp0 := Option.some.inj hfp.symm
    subst hfpeq
    obtain ⟨cs, hcs, hnp0eq⟩ := transformProduct_inv _ _ _ _ _ hnp0
    have h0lt : 0 < m.products.length := (List.getElem?_eq_some.1 htp0).1
    have hget0 : m'.products[0]? = some np0 := by
      rw [hfprod, List.getElem?_set_ne (by norm_num : (1 : ℕ) ≠ 0),
        List.getElem?_set_self (by simpa using h0lt)]
    refine ⟨np0, hget0, by rw [hnp0eq], ?_⟩
    intro j tc fc hj htc hfc
    obtain ⟨fc2, rc, hfc2, hfrc, hrc⟩ :=
      zipTransform_getElem_lt _ (maxL + 1) tp.contractions fp.contractions
        cs hcs j hj tc htc
    rw [hfc] at hfc2
    have hfceq : fc = fc2 := Option.some.inj hfc2
    subst hfceq
    have hfpmem : fp ∈ mf.products := by
      rcases List.getElem?_eq_some.1 hfp0 with ⟨hlt, heq⟩
      exact heq ▸ List.getElem_mem hlt
    have hfcmem : fc ∈ fp.contractions := by
      rcases List.getElem?_eq_some.1 hfc with ⟨hlt, heq⟩
      exact heq ▸ List.getElem_mem hlt
    obtain ⟨fw0, fw1, hfw0, hfw1, hrec⟩ :=
      transformContraction_inv mf.atomic_numbers.length tc fc rc
        (hcontr fp hfpmem fc hfcmem).1 (hcontr fp hfpmem fc hfcmem).2 hfrc
    refine ⟨fw0, fw1, hfw0, hfw1, ?_⟩
    rw [hnp0eq]
    simp only
    rw [hrc, hrec]
  · intro tp fp htp hfp
    have htp1b : m.products[1]? = some tp1 := by
      rw [← htp1, List.getElem?_set_ne (by norm_num : (0 : ℕ) ≠ 1)]
    rw [htp1b] at htp
    have htpeq : tp = tp1 := Option.some.inj htp.symm
    subst htpeq
    rw [hfp1] at hfp
    have hfpeq : fp = fp1 := Option.some.inj hfp.symm
    subst hfpeq
    obtain ⟨cs, hcs, hnp1eq⟩ := transformProduct_inv _ _ _ _ _ hnp1
    have h1lt : 1 < m.products.length := (List.getElem?_eq_some.1 htp1b).1
    have hget1 : m'.products[1]? = some np1 := by
      rw [hfprod, List.getElem?_set_self]
      rw [List.length_set]
      exact h1lt
    refine ⟨np1, hget1, by rw [hnp1eq], ?_⟩
    intro j tc fc hj htc hfc
    obtain ⟨fc2, rc, hfc2, hfrc, hrc⟩ :=
      zipTransform_getElem_lt _ 1 tp.contractions fp.contractions
        cs hcs j hj tc htc
    rw [hfc] at hfc2
    have hfceq : fc = fc2 := Option.some.inj hfc2
    subst hfceq
    have hfpmem : fp ∈ mf.products := by
      rcases List.getElem?_eq_some.1 hfp1 with ⟨hlt, heq⟩
      exact heq ▸ List.getElem_mem hlt
    have hfcmem : fc ∈ fp.contractions := by
      rcases List.getElem?_eq_some.1 hfc with ⟨hlt, heq⟩
      exact heq ▸ List.getElem_mem hlt
    obtain ⟨fw0, fw1, hfw0, hfw1, hrec⟩ :=
      transformContraction_inv mf.atomic_numbers.length tc fc rc
        (hcontr fp hfpmem fc hfcmem).1 (hcontr fp hfpmem fc hfcmem).2 hfrc
    refine ⟨fw0, fw1, hfw0, hfw1, ?_⟩
    rw [hnp1eq]
    simp only
    rw [hrc, hrec]
  · intro hlr
    subst hlr
    exact ⟨by simpa using hfr0, by simpa using hfr11, by simpa using hfr12⟩
  · intro hnone
    rw [hnone, applyScaleShift_none] at hss
    rw [hfss]
    exact (Option.some.inj hss).symm
  · intro fss tss hf ht
    rw [hf, ht, applyScaleShift_some] at hss
    rw [hfss]
    exact (Option.some.inj hss).symm

/-- Witness for claim C2 at a concrete input. -/
theorem claim_C2_witness :
    Real.sqrt ((cexFoundation.atomic_numbers.length : ℝ) /
      ((⟨[1]⟩ : AtomicNumberTable).zs.length : ℝ)) = 1 ∧
    cexExpected.node_embedding_weight = cexFoundation.node_embedding_weight ∧
    (cexTarget.bessel_fn_className = "BesselBasis" →
      cexExpected.bessel_weights = cexFoundation.bessel_weights) ∧
    (∀ i tb fb, i < cexTarget.num_interactions →
      cexTarget.interactions[i]? = some tb →
      cexFoundation.interactions[i]? = some fb →
      cexExpected.interactions[i]? = some { tb with
        linear_up_weight := fb.linear_up_weight
        avg_num_neighbors := fb.avg_num_neighbors
        conv_tp_weights := fb.conv_tp_weights
        linear_weight := fb.linear_weight
        skip_tp_weight := fb.skip_tp_weight }) ∧
    (∀ tp fp, cexTarget.products[0]? = some tp →
      cexFoundation.products[0]? = some fp →
      ∃ pb, cexExpected.products[0]? = some pb ∧
        pb.linear_weight = fp.linear_weight ∧
        ∀ j tc fc, j < 0 + 1 → tp.contractions[j]? = some tc →
          fp.contractions[j]? = some fc →
          ∃ fw0 fw1, fc.weights[0]? = some fw0 ∧ fc.weights[1]? = some fw1 ∧
            pb.contractions[j]? = some { tc with
              weights_max := fc.weights_max
              weights := (tc.weights.set 0 fw0).set 1 fw1 }) ∧
    (∀ tp fp, cexTarget.products[1]? = some tp →
      cexFoundation.products[1]? = some fp →
      ∃ pb, cexExpected.products[1]? = some pb ∧
        pb.linear_weight = fp.linear_weight ∧
        ∀ j tc fc, j < 1 → tp.contractions[j]? = some tc →
          fp.contractions[j]? = some fc →
          ∃ fw0 fw1, fc.weights[0]? = some fw0 ∧ fc.weights[1]? = some fw1 ∧
            pb.contractions[j]? = some { tc with
              weights_max := fc.weights_max
              weights := (tc.weights.set 0 fw0).set 1 fw1 }) ∧
    (false = true →
      cexExpected.readout0_linear_weight = cexFoundation.readout0_linear_weight ∧
      cexExpected.readout1_linear1_weight = cexFoundation.readout1_linear1_weight ∧
      cexExpected.readout1_linear2_weight = cexFoundation.readout1_linear2_weight) ∧
    (cexFoundation.scale_shift = none →
      cexExpected.scale_shift = cexTarget.scale_shift) ∧
    (∀ fss tss, cexFoundation.scale_shift = some fss →
      cexTarget.scale_shift = some tss →
      cexExpected.scale_shift = some
        { scale := if true then fss.scale else tss.scale,
          shift := if false then fss.shift else tss.shift }) :=
  claim_C2_identity_transplant cexTarget cexFoundation ⟨[1]⟩ false false true 0
    cexExpected 1 load_foundations_cex_eval rfl (by decide) (by decide) rfl
    (by decide)
    (by
      intro i tb fb hi htb hfb
      have hi0 : i = 0 := by
        simp only [cexTarget] at hi
        omega
      subst hi0
      simp only [cexTarget, List.getElem?_cons_zero, Option.some.injEq] at htb
      simp only [cexFoundation, List.getElem?_cons_zero, Option.some.injEq] at hfb
      subst htb
      subst hfb
      constructor
      · intro hcls
        exact absurd hcls (by decide)
      · intro _
        rfl)
    (by decide)
